import Mathlib

set_option maxHeartbeats 1000000

/-!
Verification development for the kimten turn-composition and memory
subsystem.  Definitions are shallow embeddings of the JavaScript sources:
`memory.js` (`createMemory`), `prompt.js` (`serializeContext`,
`unwrapZodSchema`, `describeZodSchema`, `buildEffectiveInput`,
`buildMessagesForAgent`), `attachments.js` (`resolveAttachmentPayloads`),
and `kimten.js` (`playOnce`, `play`, `toAssistantMemoryContent`).
Mutable arrays become explicit list-passing, promise-returning functions
become `Except`-valued functions, and the per-instance promise chain
becomes an explicit sequential fold.
-/

/-! ## Memory Store (memory.js, createMemory) -/

/-- Default capacity of the short-term store (`MEMORY_LIMIT = 10`). -/
def MEMORY_LIMIT : Nat := 10

/-- One `add(message)` call of `createMemory(limit)`:
`history.push(message); if (history.length > limit) history.shift();`.
The element type is abstract: the store never inspects records. -/
def memAdd (limit : Nat) (history : List α) (m : α) : List α :=
  let h := history ++ [m]
  if limit < h.length then h.tail else h

/-- Folding a whole sequence of `add` calls over a starting history. -/
def memAddAll (limit : Nat) (history : List α) (ms : List α) : List α :=
  ms.foldl (memAdd limit) history

/-- `clear()` of `createMemory`: `history.length = 0`. -/
def memClear (_history : List α) : List α := []

theorem memAdd_length_le (limit : Nat) (history : List α) (m : α)
    (h : history.length ≤ limit) : (memAdd limit history m).length ≤ limit := by
  unfold memAdd
  simp only [List.length_append, List.length_singleton]
  split
  · simp [List.length_tail]
    omega
  · simp only [List.length_append, List.length_singleton] at *
    omega

/-- Invariant characterising the store after a fold of `add` calls: the
history is exactly the suffix of all inserted records that fits. -/
theorem memAddAll_eq_drop (limit : Nat) (acc : List α) (xs : List α)
    (hacc : acc.length ≤ limit) :
    memAddAll limit acc xs = (acc ++ xs).drop (acc.length + xs.length - limit) := by
  induction xs generalizing acc with
  | nil =>
      simp [memAddAll]
      have : acc.length - limit = 0 := by omega
      simp [this]
  | cons x rest ih =>
      have step : memAddAll limit acc (x :: rest) = memAddAll limit (memAdd limit acc x) rest := by
        simp [memAddAll, List.foldl_cons]
      rw [step]
      by_cases hlt : acc.length + 1 ≤ limit
      · have hm : memAdd limit acc x = acc ++ [x] := by
          unfold memAdd
          simp only [List.length_append, List.length_singleton]
          split <;> first | omega | rfl
        rw [hm, ih (acc ++ [x]) (by simp; omega)]
        have h3 : (acc ++ [x]) ++ rest = acc ++ x :: rest := by simp
        rw [h3]
        congr 1
        simp
        omega
      · have heq : acc.length = limit := by omega
        have hm : memAdd limit acc x = (acc ++ [x]).tail := by
          unfold memAdd
          simp only [List.length_append, List.length_singleton]
          split <;> first | rfl | omega
        have htl : (acc ++ [x]).tail.length ≤ limit := by
          simp [List.length_tail]; omega
        rw [hm, ih _ htl]
        have hne : acc ++ [x] ≠ [] := by simp
        have h1 : (acc ++ [x]).tail ++ rest = ((acc ++ [x]) ++ rest).tail := by
          cases acc <;> simp
        rw [h1]
        have h2 : ((acc ++ [x]) ++ rest).tail = ((acc ++ [x]) ++ rest).drop 1 := by
          simp [List.drop_one]
        rw [h2, List.drop_drop]
        have h3 : (acc ++ [x]) ++ rest = acc ++ x :: rest := by simp
        rw [h3]
        congr 1
        simp [List.length_tail]
        omega

/-- **C3.** For every capacity and every inserted sequence, the store holds
exactly the fitting suffix: `list()` has length `min k N`, the surviving
records are the last `min k N` insertions in insertion order, and when
`k > N` the head of the store is the `(k-N)`-th (0-based) insertion. -/
theorem memory_fifo_window (N : Nat) (xs : List α) :
    (memAddAll N ([] : List α) xs).length = min xs.length N ∧
    memAddAll N ([] : List α) xs = xs.drop (xs.length - N) ∧
    (N < xs.length →
      (memAddAll N ([] : List α) xs).head? = xs.get? (xs.length - N)) := by
  have hmain : memAddAll N ([] : List α) xs = xs.drop (xs.length - N) := by
    have := memAddAll_eq_drop N ([] : List α) xs (by simp)
    simpa using this
  refine ⟨?_, hmain, ?_⟩
  · rw [hmain, List.length_drop]; omega
  · intro _
    rw [hmain]
    rw [List.head?_drop]
    simp [List.get?_eq_getElem?]

/-- **C3 witness.** Capacity 2, three insertions: length `min 3 2 = 2` and
the head is insertion number `3 - 2 = 1`. -/
theorem memory_fifo_window_witness :
    (2 : Nat) < ([10, 20, 30] : List Nat).length ∧
    (memAddAll 2 ([] : List Nat) [10, 20, 30]).head? =
      ([10, 20, 30] : List Nat).get? (3 - 2) := by
  refine ⟨by decide, ?_⟩
  exact (memory_fifo_window 2 [10, 20, 30]).2.2 (by decide)

/-! ## Memory Store aliasing model (memory.js, `list()` is `history.slice()`)

`list()` returns a fresh array object whose elements are the same record
object references as the internal `history` array.  To reason about what a
caller can reach through the returned value we model the JavaScript heap
explicitly: records live at addresses in a record heap, arrays live at
addresses in an array heap, and an array is a list of record addresses. -/

/-- A stored record as a JavaScript object: mutable `role`/`content` fields. -/
structure MemRecord where
  role : String
  content : String
deriving DecidableEq

/-- The heap: record objects and array objects, addressed by index. -/
structure MemHeap where
  recs : List MemRecord
  arrs : List (List Nat)
deriving DecidableEq

/-- Read an array object (a list of record addresses). -/
def readArr (h : MemHeap) (a : Nat) : List Nat := (h.arrs.getD a [])

/-- Overwrite an array object in place: models any caller-side mutation of
an array they hold a reference to (push, pop, splice, reorder...). -/
def writeArr (h : MemHeap) (a : Nat) (xs : List Nat) : MemHeap :=
  { h with arrs := h.arrs.set a xs }

/-- Read a record object. -/
def readRec (h : MemHeap) (r : Nat) : MemRecord := h.recs.getD r ⟨"", ""⟩

/-- Mutate the `content` field of a record object in place. -/
def setRecContent (h : MemHeap) (r : Nat) (c : String) : MemHeap :=
  { h with recs := h.recs.set r { readRec h r with content := c } }

/-- `list()` = `history.slice()`: allocate a fresh array holding the same
record addresses as the store's internal array at `histAddr`, and return
the fresh array's address. -/
def memListImpl (h : MemHeap) (histAddr : Nat) : MemHeap × Nat :=
  ({ h with arrs := h.arrs ++ [readArr h histAddr] }, h.arrs.length)

/-- The records a caller observes through an array address. -/
def derefArr (h : MemHeap) (a : Nat) : List MemRecord :=
  (readArr h a).map (readRec h)

/-- **C9 counterexample.** A caller that mutates a field of a record
obtained from `list()` does change what a subsequent `list()` returns:
start from a store (internal array at address 0) holding one record
`{user, hi}`, call `list()`, overwrite the returned record's `content`
through the returned reference, call `list()` again — the observed records
differ from the first snapshot, so the claim is false as stated. -/
theorem memory_list_field_mutation_visible :
    let h0 : MemHeap := ⟨[⟨"user", "hi"⟩], [[0]]⟩
    let l1 := memListImpl h0 0
    let firstSeen := derefArr l1.1 l1.2
    let h2 := setRecContent l1.1 ((readArr l1.1 l1.2).getD 0 0) "evil"
    let l2 := memListImpl h2 0
    derefArr l2.1 l2.2 ≠ firstSeen := by
  decide

/-- **C9 (amended).** `list()` allocates a fresh array: its contents are a
copy of the store's internal record-address sequence, and any caller-side
mutation of the returned array object leaves the store's internal array
(and hence later `list()` results' address sequence) unchanged.  (Record
objects themselves are shared, as the counterexample shows.) -/
theorem memory_list_array_copy_is_independent (h : MemHeap) (histAddr : Nat)
    (ha : histAddr < h.arrs.length) (xs : List Nat) :
    readArr (memListImpl h histAddr).1 (memListImpl h histAddr).2 =
      readArr h histAddr ∧
    readArr (writeArr (memListImpl h histAddr).1 (memListImpl h histAddr).2 xs)
      histAddr = readArr h histAddr := by
  constructor
  · simp [memListImpl, readArr]
  · simp only [memListImpl, writeArr, readArr]
    have hne : h.arrs.length ≠ histAddr := by omega
    rw [List.getD, List.get?_eq_getElem?, List.getElem?_set_ne hne,
      List.getElem?_append]
    simp [List.getD, List.get?_eq_getElem?, ha]

/-- **C9 witness.** The amended theorem applied to a concrete heap. -/
theorem memory_list_array_copy_is_independent_witness :
    (0 : Nat) < ((⟨[⟨"user", "hi"⟩], [[0]]⟩ : MemHeap)).arrs.length ∧
    readArr (writeArr (memListImpl (⟨[⟨"user", "hi"⟩], [[0]]⟩ : MemHeap) 0).1
        (memListImpl (⟨[⟨"user", "hi"⟩], [[0]]⟩ : MemHeap) 0).2 []) 0 =
      readArr (⟨[⟨"user", "hi"⟩], [[0]]⟩ : MemHeap) 0 := by
  refine ⟨by decide, ?_⟩
  exact (memory_list_array_copy_is_independent
    (⟨[⟨"user", "hi"⟩], [[0]]⟩ : MemHeap) 0 (by decide) []).2

/-! ## JSON values and the context serializer (prompt.js, serializeContext)

`serializeContext` is `JSON.stringify(context, replacer, 2)` where the
replacer swaps the value of any sensitive-looking key for the marker
`[REDACTED]`, followed by a `typeof redacted !== 'string'` fallback to the
empty string and a 4000-character truncation.  JavaScript values that can
appear in a plain context object are modelled by `JVal` (mutual with array
and object spines so all recursion is structural); `jbig` models BigInt
values, which `JSON.stringify` refuses to serialize, and `jundef` models
`undefined` (fields with it are omitted; an `undefined` root makes
`JSON.stringify` return `undefined`, not a string).  Applying the replacer
first (`redactJson`) and then serializing without a replacer
(`jsonSerialize`) is equivalent to `JSON.stringify` with the replacer,
because the replacer substitutes a sensitive key's whole subtree before
the serializer ever looks at it. -/

/-- Character-list prefix test (helper for the substring test). -/
def listHasPrefixChars : List Char → List Char → Bool
  | [], _ => true
  | _ :: _, [] => false
  | p :: ps, c :: cs => p == c && listHasPrefixChars ps cs

/-- Character-list substring test (helper for `strIncludes`). -/
def listContainsSub (pat : List Char) : List Char → Bool
  | [] => listHasPrefixChars pat []
  | c :: cs => listHasPrefixChars pat (c :: cs) || listContainsSub pat cs

/-- JavaScript `String.prototype.includes`. -/
def strIncludes (s pat : String) : Bool := listContainsSub pat.toList s.toList

/-- ASCII lowercasing of one character (agrees with JavaScript
`toLowerCase` on the ASCII range, which is all the sensitive tokens use). -/
def lowerChar (c : Char) : Char :=
  if 65 ≤ c.toNat && c.toNat ≤ 90 then Char.ofNat (c.toNat + 32) else c

/-- `String.prototype.toLowerCase` (ASCII range). -/
def strToLower (s : String) : String := String.mk (s.toList.map lowerChar)

/-- The replacer's key test: the lowercased key contains `password`,
`token`, `secret`, `apikey` or `api_key`. -/
def isSensitiveKey (key : String) : Bool :=
  let lowered := strToLower key
  strIncludes lowered "password" || strIncludes lowered "token" ||
    strIncludes lowered "secret" || strIncludes lowered "apikey" ||
    strIncludes lowered "api_key"

mutual
/-- A JavaScript value reachable inside a plain context object. -/
inductive JVal where
  | jnull : JVal
  | jundef : JVal
  | jbool : Bool → JVal
  | jnum : Int → JVal
  | jbig : Int → JVal
  | jstr : String → JVal
  | jarr : JArr → JVal
  | jobj : JObj → JVal
/-- Array spine. -/
inductive JArr where
  | nil : JArr
  | cons : JVal → JArr → JArr
/-- Object spine: ordered key/value fields. -/
inductive JObj where
  | nil : JObj
  | cons : String → JVal → JObj → JObj
end

/-- The fixed redaction marker. -/
def REDACTED_MARKER : String := "[REDACTED]"

mutual
/-- The replacer of `serializeContext`, applied recursively: the value of
every sensitive key becomes the marker string (its subtree is dropped,
exactly as `JSON.stringify` does, since the replacer runs before
recursion); everything else is kept. -/
def redactJson : JVal → JVal
  | .jarr es => .jarr (redactArr es)
  | .jobj fs => .jobj (redactObj fs)
  | v => v
termination_by structural v => v
/-- Replacer over an array: element keys are the indices "0", "1", ...,
which never contain a sensitive token, so elements are just recursed. -/
def redactArr : JArr → JArr
  | .nil => .nil
  | .cons v rest => .cons (redactJson v) (redactArr rest)
termination_by structural es => es
/-- Replacer over object fields. -/
def redactObj : JObj → JObj
  | .nil => .nil
  | .cons k v rest =>
      .cons k (if isSensitiveKey k then .jstr REDACTED_MARKER else redactJson v)
        (redactObj rest)
termination_by structural fs => fs
end

/-- Is this value exactly the redaction-marker string? -/
def isRedactMarker : JVal → Bool
  | .jstr s => s == REDACTED_MARKER
  | _ => false

mutual
/-- Every sensitive key, at any depth, has exactly the marker as value. -/
def sensitiveAllRedacted : JVal → Bool
  | .jarr es => arrAllRedacted es
  | .jobj fs => objAllRedacted fs
  | _ => true
termination_by structural v => v
/-- Array version of `sensitiveAllRedacted`. -/
def arrAllRedacted : JArr → Bool
  | .nil => true
  | .cons v rest => sensitiveAllRedacted v && arrAllRedacted rest
termination_by structural es => es
/-- Object version of `sensitiveAllRedacted`. -/
def objAllRedacted : JObj → Bool
  | .nil => true
  | .cons k v rest =>
      (if isSensitiveKey k then isRedactMarker v else sensitiveAllRedacted v) &&
        objAllRedacted rest
termination_by structural fs => fs
end

mutual
theorem redactJson_marks : (v : JVal) → sensitiveAllRedacted (redactJson v) = true
  | .jnull => rfl
  | .jundef => rfl
  | .jbool _ => rfl
  | .jnum _ => rfl
  | .jbig _ => rfl
  | .jstr _ => rfl
  | .jarr es => by
      simp only [redactJson, sensitiveAllRedacted]
      exact redactArr_marks es
  | .jobj fs => by
      simp only [redactJson, sensitiveAllRedacted]
      exact redactObj_marks fs
theorem redactArr_marks : (es : JArr) → arrAllRedacted (redactArr es) = true
  | .nil => rfl
  | .cons v rest => by
      simp only [redactArr, arrAllRedacted, Bool.and_eq_true]
      exact ⟨redactJson_marks v, redactArr_marks rest⟩
theorem redactObj_marks : (fs : JObj) → objAllRedacted (redactObj fs) = true
  | .nil => rfl
  | .cons k v rest => by
      simp only [redactObj, objAllRedacted, Bool.and_eq_true]
      refine ⟨?_, redactObj_marks rest⟩
      by_cases hk : isSensitiveKey k = true
      · simp [hk, isRedactMarker, REDACTED_MARKER]
      · simp only [Bool.not_eq_true] at hk
        simp [hk]
        exact redactJson_marks v
end

/-- **C5.** For every context value and every key at any nesting depth
whose lowercase form contains `password`, `token`, `secret`, `apikey` or
`api_key`, the value serialized for that key by `serializeContext`'s
replacer (`redactJson`, the redaction pass of `serializeContextImpl`) is
exactly the marker string `[REDACTED]`. -/
theorem serializeContext_redacts_sensitive_keys (v : JVal) :
    sensitiveAllRedacted (redactJson v) = true :=
  redactJson_marks v

/-- Lowercase hex digit (for control-character escapes). -/
def hexDigitChar (n : Nat) : String :=
  if n < 10 then String.singleton (Char.ofNat (48 + n))
  else String.singleton (Char.ofNat (87 + n))

/-- JSON string-character escaping as performed by `JSON.stringify`. -/
def jsonEscapeChar (c : Char) : String :=
  if c = Char.ofNat 34 then "\\\""
  else if c = '\\' then "\\\\"
  else if c = Char.ofNat 8 then "\\b"
  else if c = Char.ofNat 9 then "\\t"
  else if c = Char.ofNat 10 then "\\n"
  else if c = Char.ofNat 12 then "\\f"
  else if c = Char.ofNat 13 then "\\r"
  else if c.toNat < 32 then
    "\\u00" ++ hexDigitChar (c.toNat / 16) ++ hexDigitChar (c.toNat % 16)
  else String.singleton c

/-- `JSON.stringify` of a string value. -/
def jsonQuote (s : String) : String :=
  "\"" ++ String.join (s.toList.map jsonEscapeChar) ++ "\""

mutual
/-- `JSON.stringify(v, null, 2)` after the replacer pass: `ind` is the
enclosing indentation.  `.ok none` is JavaScript's `undefined` result
(undefined root); `.error ()` is the `TypeError` thrown on a BigInt. -/
def jsonSerialize (ind : String) : JVal → Except Unit (Option String)
  | .jundef => .ok none
  | .jnull => .ok (some "null")
  | .jbool b => .ok (some (if b then "true" else "false"))
  | .jnum n => .ok (some (toString n))
  | .jbig _ => .error ()
  | .jstr s => .ok (some (jsonQuote s))
  | .jarr es =>
      match jsonSerializeArr (ind ++ "  ") es with
      | .error e => .error e
      | .ok [] => .ok (some "[]")
      | .ok items =>
          .ok (some ("[\n" ++ ind ++ "  " ++
            String.intercalate (",\n" ++ ind ++ "  ") items ++
            "\n" ++ ind ++ "]"))
  | .jobj fs =>
      match jsonSerializeObj (ind ++ "  ") fs with
      | .error e => .error e
      | .ok [] => .ok (some "\x7b\x7d")
      | .ok entries =>
          .ok (some ("\x7b\n" ++ ind ++ "  " ++
            String.intercalate (",\n" ++ ind ++ "  ") entries ++
            "\n" ++ ind ++ "\x7d"))
termination_by structural v => v
/-- Array elements: an `undefined` element serializes as `null`. -/
def jsonSerializeArr (ind : String) : JArr → Except Unit (List String)
  | .nil => .ok []
  | .cons v rest =>
      match jsonSerialize ind v with
      | .error e => .error e
      | .ok item =>
          match jsonSerializeArr ind rest with
          | .error e => .error e
          | .ok items => .ok ((item.getD "null") :: items)
termination_by structural es => es
/-- Object entries: a field whose value serializes to `undefined` is
omitted. -/
def jsonSerializeObj (ind : String) : JObj → Except Unit (List String)
  | .nil => .ok []
  | .cons k v rest =>
      match jsonSerialize ind v with
      | .error e => .error e
      | .ok item =>
          match jsonSerializeObj ind rest with
          | .error e => .error e
          | .ok entries =>
              match item with
              | none => .ok entries
              | some s => .ok ((jsonQuote k ++ ": " ++ s) :: entries)
termination_by structural fs => fs
end

/-- `CONTEXT_CHAR_LIMIT = 4000`. -/
def CONTEXT_CHAR_LIMIT : Nat := 4000

/-- `serializeContext(context)` from prompt.js for a nullish or
plain-object argument (a non-plain argument throws a `TypeError` before
this logic runs, which is outside every claim about this function):
redact via the replacer, serialize with 2-space indentation, fall back to
the empty string when `JSON.stringify` did not return a string, truncate
past 4000 characters.  The `.error` result models an exception
propagating out of `JSON.stringify` (cyclic structure or BigInt). -/
def serializeContextImpl (context : Option JVal) : Except Unit String :=
  match context with
  | none => .ok ""
  | some v =>
      match jsonSerialize "" (redactJson v) with
      | .error e => .error e
      | .ok none => .ok ""
      | .ok (some s) =>
          if s.length ≤ CONTEXT_CHAR_LIMIT then .ok s
          else .ok (s.take CONTEXT_CHAR_LIMIT ++ "\n...(truncated)")

/-- **C6.** The claim says `serializeContext` never raises for plain-object
input and substitutes placeholders for big-integer (and cyclic) values —
and the repository's own prompt tests assert exactly that — but the
implementation passes such values straight to `JSON.stringify`, whose
`TypeError` propagates: on the plain object with a single non-sensitive
BigInt field `id: 1n` the function raises.  (Nullish input does yield the
empty string, and an input whose conversion yields `undefined` yields the
empty string, as claimed.) -/
theorem serializeContext_raises_on_bigint :
    serializeContextImpl (some (.jobj (.cons "id" (.jbig 1) .nil))) = .error () ∧
    serializeContextImpl none = .ok "" ∧
    serializeContextImpl (some .jundef) = .ok "" := by
  refine ⟨rfl, rfl, rfl⟩

/-! ## Schema Descriptor (prompt.js, unwrapZodSchema / describeZodSchema)

A type-descriptor node, covering both encoding dialects the source
recognizes: the v3 `_def.typeName` names (`ZodOptional`, `ZodString`, ...)
and the v4 `_zod.def.type` tags (`optional`, `string`, ...).  The source
reads both dialects into the same shape (a kind tag plus an inner node /
element / fields / options), so one constructor per conceptual kind
embeds both.  A lazily-computed object shape (`typeof rawShape ===
'function'`) is realized before key enumeration, so fields are modelled
as the materialized key/value list.  A pipeline node is represented by
the side the walker lands on (`in`, falling back to `out`).  `zfuture`
stands for any unrecognized node kind (for example a future `typeName`),
which must render as `unknown`. -/

/-- A literal value carried by a `ZodLiteral` node. -/
inductive ZLit where
  | lstr : String → ZLit
  | lnum : Int → ZLit
  | lbool : Bool → ZLit
  | lnull : ZLit
deriving DecidableEq

/-- `JSON.stringify` of a literal value (total on these). -/
def stringifyLit : ZLit → String
  | .lstr s => jsonQuote s
  | .lnum n => toString n
  | .lbool b => if b then "true" else "false"
  | .lnull => "null"

/-- Type Descriptor Node. -/
inductive ZNode where
  | zstring : ZNode
  | znumber : ZNode
  | zboolean : ZNode
  | znull : ZNode
  | zany : ZNode
  | zunknownT : ZNode
  | zliteral : ZLit → ZNode
  | zenum : Option (List String) → ZNode
  | znativeEnum : ZNode
  | zarray : ZNode → ZNode
  | zobject : List (String × ZNode) → ZNode
  | zunion : List ZNode → ZNode
  | zfuture : ZNode
  | optionalW : ZNode → ZNode
  | nullableW : ZNode → ZNode
  | defaultW : ZNode → ZNode
  | brandedW : ZNode → ZNode
  | readonlyW : ZNode → ZNode
  | catchW : ZNode → ZNode
  | effectsW : ZNode → ZNode
  | transformW : ZNode → ZNode
  | pipelineW : ZNode → ZNode

/-- One iteration of the unwrap loop: the inner node of a transparent
wrapper kind (`ZodOptional`/`optional`, ..., `ZodEffects`,
`ZodPipeline`/`pipe`, v4 `transform`), or `none` for a concrete node. -/
def wrapInner : ZNode → Option ZNode
  | .optionalW i => some i
  | .nullableW i => some i
  | .defaultW i => some i
  | .brandedW i => some i
  | .readonlyW i => some i
  | .catchW i => some i
  | .effectsW i => some i
  | .transformW i => some i
  | .pipelineW i => some i
  | _ => none

/-- The unwrap loop with its iteration budget (`guard < 20`). -/
def unwrapAux : Nat → ZNode → ZNode
  | 0, s => s
  | n + 1, s =>
      match wrapInner s with
      | some inner => unwrapAux n inner
      | none => s

/-- `unwrapZodSchema`: strip transparent wrappers, at most 20 hops. -/
def unwrapZodSchema (s : ZNode) : ZNode := unwrapAux 20 s

theorem wrapInner_sizeOf {s t : ZNode} (h : wrapInner s = some t) :
    sizeOf t < sizeOf s := by
  cases s <;> simp [wrapInner] at h <;> subst h <;> simp

theorem unwrapAux_sizeOf (n : Nat) (s : ZNode) :
    sizeOf (unwrapAux n s) ≤ sizeOf s := by
  induction n generalizing s with
  | zero => simp [unwrapAux]
  | succ n ih =>
      unfold unwrapAux
      cases hw : wrapInner s with
      | none => simp
      | some inner =>
          simp only []
          exact le_of_lt (lt_of_le_of_lt (ih inner) (wrapInner_sizeOf hw))

theorem unwrapZodSchema_sizeOf (s : ZNode) :
    sizeOf (unwrapZodSchema s) ≤ sizeOf s := unwrapAux_sizeOf 20 s

/-- Insert a field into a key-sorted field list (helper for the
deterministic `Object.keys(shape).sort()` of the object renderer). -/
def insertField (p : String × ZNode) : List (String × ZNode) → List (String × ZNode)
  | [] => [p]
  | q :: rest => if p.1 ≤ q.1 then p :: q :: rest else q :: insertField p rest

/-- Sort object fields by key (lexicographic, as the JS default sort). -/
def sortFields : List (String × ZNode) → List (String × ZNode)
  | [] => []
  | p :: rest => insertField p (sortFields rest)

theorem mem_insertField {x p : String × ZNode} {l : List (String × ZNode)} :
    x ∈ insertField p l → x = p ∨ x ∈ l := by
  induction l with
  | nil =>
      intro h
      simpa [insertField] using h
  | cons q rest ih =>
      intro h
      unfold insertField at h
      split at h
      · simpa using h
      · rw [List.mem_cons] at h
        rcases h with h | h
        · right; simp [h]
        · rcases ih h with h | h
          · left; exact h
          · right; simp [h]

theorem mem_sortFields {x : String × ZNode} {l : List (String × ZNode)} :
    x ∈ sortFields l → x ∈ l := by
  induction l with
  | nil =>
      intro h
      simp [sortFields] at h
  | cons p rest ih =>
      intro h
      unfold sortFields at h
      rcases mem_insertField h with h | h
      · simp [h]
      · simp [ih h]

/-- `describeZodSchema`: unwrap, then render by kind; wrapper kinds that
survive the hop budget fall through to `unknown`, like any unrecognized
node. -/
def describeZodSchema (s : ZNode) : String :=
  match hu : unwrapZodSchema s with
  | .zstring => "string"
  | .znumber => "number"
  | .zboolean => "boolean"
  | .znull => "null"
  | .zany => "any"
  | .zunknownT => "any"
  | .zliteral v => stringifyLit v
  | .zenum (some vs) => String.intercalate " | " (vs.map (fun v => jsonQuote v))
  | .zenum none => "enum"
  | .znativeEnum => "enum"
  | .zarray e => describeZodSchema e ++ "[]"
  | .zobject fields =>
      "\x7b " ++ String.intercalate ", "
        ((sortFields fields).attach.map
          (fun p => jsonQuote p.1.1 ++ ": " ++ describeZodSchema p.1.2)) ++ " \x7d"
  | .zunion opts =>
      String.intercalate " | " (opts.attach.map (fun o => describeZodSchema o.1))
  | _ => "unknown"
termination_by sizeOf s
decreasing_by
  · have hle := unwrapZodSchema_sizeOf s
    rw [hu] at hle
    simp at hle
    omega
  · have hle := unwrapZodSchema_sizeOf s
    rw [hu] at hle
    obtain ⟨⟨k, v⟩, hmem⟩ := p
    have hsz := List.sizeOf_lt_of_mem (mem_sortFields hmem)
    simp at hle hsz ⊢
    omega
  · have hle := unwrapZodSchema_sizeOf s
    rw [hu] at hle
    obtain ⟨o1, ho⟩ := o
    have hsz := List.sizeOf_lt_of_mem ho
    simp at hle ⊢
    omega

/-- The transparent wrapper kinds of the claim (both dialects). -/
inductive WrapKind where
  | optKind : WrapKind
  | nullKind : WrapKind
  | defKind : WrapKind
  | brandKind : WrapKind
  | roKind : WrapKind
  | catchKind : WrapKind
  | effKind : WrapKind
  | transKind : WrapKind
  | pipeKind : WrapKind

/-- Wrap a node in one transparent wrapper. -/
def applyWrap : WrapKind → ZNode → ZNode
  | .optKind, s => .optionalW s
  | .nullKind, s => .nullableW s
  | .defKind, s => .defaultW s
  | .brandKind, s => .brandedW s
  | .roKind, s => .readonlyW s
  | .catchKind, s => .catchW s
  | .effKind, s => .effectsW s
  | .transKind, s => .transformW s
  | .pipeKind, s => .pipelineW s

/-- Wrap a node in a whole stack of wrappers (head outermost). -/
def wrapAll (ws : List WrapKind) (p : ZNode) : ZNode := ws.foldr applyWrap p

/-- The primitive descriptor kinds named by the claim. -/
def isPrimitiveNode : ZNode → Bool
  | .zstring => true
  | .znumber => true
  | .zboolean => true
  | .znull => true
  | .zliteral _ => true
  | .zenum _ => true
  | _ => false

theorem wrapInner_applyWrap (w : WrapKind) (p : ZNode) :
    wrapInner (applyWrap w p) = some p := by
  cases w <;> rfl

theorem prim_wrapInner {p : ZNode} (hp : isPrimitiveNode p = true) :
    wrapInner p = none := by
  cases p <;> simp_all [isPrimitiveNode, wrapInner]

theorem unwrapAux_concrete {p : ZNode} (hp : wrapInner p = none) (n : Nat) :
    unwrapAux n p = p := by
  cases n with
  | zero => rfl
  | succ m =>
      unfold unwrapAux
      rw [hp]

theorem unwrapAux_wrapAll (ws : List WrapKind) (n : Nat) (p : ZNode)
    (hlen : ws.length ≤ n) (hp : wrapInner p = none) :
    unwrapAux n (wrapAll ws p) = p := by
  induction ws generalizing n with
  | nil =>
      simpa [wrapAll] using unwrapAux_concrete hp n
  | cons w ws ih =>
      cases n with
      | zero => simp at hlen
      | succ m =>
          have hw : wrapAll (w :: ws) p = applyWrap w (wrapAll ws p) := rfl
          rw [hw]
          unfold unwrapAux
          rw [wrapInner_applyWrap]
          exact ih m (by simpa using hlen)

/-- **C7 (amended).** Descriptor unwrapping is confluent up to the 20-hop
budget: wrapping a primitive node (string, number, boolean, null, literal,
enum) in at most 20 transparent wrappers, in any combination and order,
renders the same signature as the unwrapped primitive alone. -/
theorem describeZodSchema_wrap_transparent (ws : List WrapKind) (p : ZNode)
    (hp : isPrimitiveNode p = true) (hlen : ws.length ≤ 20) :
    describeZodSchema (wrapAll ws p) = describeZodSchema p := by
  have hn : wrapInner p = none := prim_wrapInner hp
  have h1 : unwrapZodSchema (wrapAll ws p) = p :=
    unwrapAux_wrapAll ws 20 p hlen hn
  have h2 : unwrapZodSchema p = p := unwrapAux_concrete hn 20
  rw [describeZodSchema.eq_def]
  conv_rhs => rw [describeZodSchema.eq_def]
  rw [h1, h2]

/-- **C7 counterexample.** The claim quantifies over any combination and
order of wrappers, but 21 nested `optional` wrappers around a string node
exceed the 20-hop unwrap budget, so one wrapper survives and the node
renders as `unknown` instead of `string`. -/
theorem describeZodSchema_21_wrappers_differ :
    describeZodSchema (wrapAll (List.replicate 21 WrapKind.optKind) ZNode.zstring) =
        "unknown" ∧
    describeZodSchema ZNode.zstring = "string" ∧
    describeZodSchema (wrapAll (List.replicate 21 WrapKind.optKind) ZNode.zstring) ≠
      describeZodSchema ZNode.zstring := by
  have e1 : unwrapZodSchema
      (wrapAll (List.replicate 21 WrapKind.optKind) ZNode.zstring) =
      ZNode.optionalW ZNode.zstring := rfl
  have e2 : unwrapZodSchema ZNode.zstring = ZNode.zstring := rfl
  have d1 : describeZodSchema
      (wrapAll (List.replicate 21 WrapKind.optKind) ZNode.zstring) = "unknown" := by
    rw [describeZodSchema.eq_def, e1]
  have d2 : describeZodSchema ZNode.zstring = "string" := by
    rw [describeZodSchema.eq_def, e2]
  refine ⟨d1, d2, ?_⟩
  rw [d1, d2]
  decide

/-- **C7 witness.** The amended theorem at a concrete wrapper stack:
pipeline-of-effects-of-optional around a number node renders `number`. -/
theorem describeZodSchema_wrap_transparent_witness :
    (isPrimitiveNode ZNode.znumber = true ∧
      ([WrapKind.pipeKind, WrapKind.effKind, WrapKind.optKind]).length ≤ 20) ∧
    describeZodSchema
        (wrapAll [WrapKind.pipeKind, WrapKind.effKind, WrapKind.optKind] ZNode.znumber) =
      describeZodSchema ZNode.znumber :=
  ⟨⟨rfl, by decide⟩,
    describeZodSchema_wrap_transparent _ _ rfl (by decide)⟩

/-! ## Attachment Resolver (attachments.js)

`resolveAttachmentPayloads` maps over already-normalized attachments; for
a textual source that does not look like a data: URI or a scheme:// URI it
stats and reads the local file, swallowing every failure.  The filesystem
is modelled as a partial map from paths to entries; `none` models a
throwing `stat`, `.other` an entry with `isFile()` false. -/

/-- A filesystem entry: a regular file with its bytes, or anything else. -/
inductive FSEntry where
  | file : List Nat → FSEntry
  | other : FSEntry

/-- The filesystem seen by `stat`/`readFile`. -/
abbrev FileSystem := String → Option FSEntry

/-- Drop leading whitespace from a character list. -/
def dropLeadingWs : List Char → List Char
  | [] => []
  | c :: cs => if c.isWhitespace then dropLeadingWs cs else c :: cs

/-- `String.prototype.trim` (ASCII whitespace). -/
def strTrim (s : String) : String :=
  String.mk (dropLeadingWs ((dropLeadingWs s.toList.reverse).reverse))

/-- Matcher for the scheme tail of the regex
`[a-z][a-z0-9+.-]*:\/\/` (case-insensitive): consume scheme characters
until `://` is found. -/
def schemeTailMatches : List Char → Bool
  | ':' :: '/' :: '/' :: _ => true
  | c :: rest =>
      if c.isAlphanum || c == '+' || c == '.' || c == '-' then
        schemeTailMatches rest
      else false
  | [] => false

/-- Does the string start with a `scheme://` URI prefix? -/
def isSchemeUri (s : String) : Bool :=
  match s.toList with
  | c :: rest => c.isAlpha && schemeTailMatches rest
  | [] => false

/-- `toCandidateLocalPath`: trim, then reject the empty string, `data:`
sources and scheme URIs. -/
def toCandidateLocalPath (value : String) : Option String :=
  let trimmed := strTrim value
  if trimmed = "" || listHasPrefixChars "data:".toList trimmed.toList ||
      isSchemeUri trimmed then
    none
  else some trimmed

/-- `node:path` `basename` (POSIX): last path segment, ignoring trailing
separators. -/
def basename (p : String) : String :=
  String.mk
    (((p.toList.reverse.dropWhile (fun c => c == '/')).takeWhile
      (fun c => c != '/')).reverse)

/-- `tryReadLocalFile`: candidate path, `stat`, `isFile()` check, read;
any failure yields `null`. -/
def tryReadLocalFile (fs : FileSystem) (value : String) :
    Option (List Nat × String) :=
  match toCandidateLocalPath value with
  | none => none
  | some path =>
      match fs path with
      | some (.file bytes) => some (bytes, path)
      | some .other => none
      | none => none

/-- An attachment source: inline text / local path, raw bytes, or a URL
object (the resolver only ever touches string sources). -/
inductive ASource where
  | textSource : String → ASource
  | bytesSource : List Nat → ASource
  | urlSource : String → ASource
deriving DecidableEq

/-- A normalized attachment (`type` tag plus per-kind fields). -/
inductive Attachment where
  | image : ASource → Option String → Attachment
  | file : ASource → String → Option String → Attachment
deriving DecidableEq

/-- Resolve one attachment: substitute read bytes for a local-path string
source; derive a missing file `filename` from the path's base name; on
any failure pass the attachment through unchanged. -/
def resolveAttachmentPayload (fs : FileSystem) : Attachment → Attachment
  | .image (.textSource s) mt =>
      match tryReadLocalFile fs s with
      | some (bytes, _) => .image (.bytesSource bytes) mt
      | none => .image (.textSource s) mt
  | .file (.textSource s) mt fn =>
      match tryReadLocalFile fs s with
      | some (bytes, path) =>
          .file (.bytesSource bytes) mt
            (match fn with
             | some f => some f
             | none => some (basename path))
      | none => .file (.textSource s) mt fn
  | a => a

/-- `resolveAttachmentPayloads`: `Promise.all` over the per-attachment
resolutions preserves list length and order. -/
def resolveAttachmentPayloads (fs : FileSystem) (atts : List Attachment) :
    List Attachment :=
  atts.map (resolveAttachmentPayload fs)

/-- **C8.** Attachment resolution is best-effort and order-preserving:
a file attachment whose string source names an existing regular file and
which carries no filename resolves to the file's bytes with the path's
base name as filename; when the lookup fails the attachment passes
through unchanged (no error — the function is total); and the output has
the same length and order as the input. -/
theorem attachment_resolution_best_effort (fs : FileSystem)
    (atts : List Attachment) (path p src mt mt2 : String)
    (bytes : List Nat) (fn : Option String)
    (hcand : toCandidateLocalPath path = some p)
    (hfs : fs p = some (.file bytes))
    (hfail : tryReadLocalFile fs src = none) :
    resolveAttachmentPayload fs (.file (.textSource path) mt none) =
      .file (.bytesSource bytes) mt (some (basename p)) ∧
    resolveAttachmentPayload fs (.file (.textSource src) mt2 fn) =
      .file (.textSource src) mt2 fn ∧
    (resolveAttachmentPayloads fs atts).length = atts.length ∧
    (∀ i : Nat, (resolveAttachmentPayloads fs atts).get? i =
      (atts.get? i).map (resolveAttachmentPayload fs)) := by
  refine ⟨?_, ?_, ?_, ?_⟩
  · simp [resolveAttachmentPayload, tryReadLocalFile, hcand, hfs]
  · simp [resolveAttachmentPayload, hfail]
  · simp [resolveAttachmentPayloads]
  · intro i
    simp [resolveAttachmentPayloads, List.get?_eq_getElem?, List.getElem?_map]

/-- **C8 witness.** A one-file filesystem: `pics/cat.png` resolves to its
bytes and gains the filename `cat.png`; `missing.txt` passes through. -/
theorem attachment_resolution_best_effort_witness :
    (toCandidateLocalPath "pics/cat.png" = some "pics/cat.png" ∧
      (fun q => if q = "pics/cat.png" then some (FSEntry.file [7, 8]) else none)
        "pics/cat.png" = some (FSEntry.file [7, 8]) ∧
      tryReadLocalFile
        (fun q => if q = "pics/cat.png" then some (FSEntry.file [7, 8]) else none)
        "missing.txt" = none) ∧
    resolveAttachmentPayload
        (fun q => if q = "pics/cat.png" then some (FSEntry.file [7, 8]) else none)
        (.file (.textSource "pics/cat.png") "image/png" none) =
      .file (.bytesSource [7, 8]) "image/png" (some (basename "pics/cat.png")) ∧
    resolveAttachmentPayload
        (fun q => if q = "pics/cat.png" then some (FSEntry.file [7, 8]) else none)
        (.file (.textSource "missing.txt") "text/plain" none) =
      .file (.textSource "missing.txt") "text/plain" none := by
  have h := attachment_resolution_best_effort
    (fun q => if q = "pics/cat.png" then some (FSEntry.file [7, 8]) else none)
    [] "pics/cat.png" "pics/cat.png" "missing.txt" "image/png" "text/plain"
    [7, 8] none rfl (by simp) (by decide)
  exact ⟨⟨rfl, by simp, by decide⟩, h.1, h.2.1⟩

/-! ## Turn Composer (prompt.js builders; kimten.js playOnce)

The outbound message content is either plain text or a multi-part payload
(text part plus attachment payloads).  `buildMessagesForAgent` is the
shipped three-parameter prompt.js version; `playOnce` passes the computed
multi-part outbound content as a fourth argument, which that version
ignores (extra JavaScript arguments are dropped), so the enriched last
user message carries the effective-input text. -/

/-- One part of a multi-part outbound user content. -/
inductive OutPart where
  | textPart : String → OutPart
  | attachmentPart : Attachment → OutPart
deriving DecidableEq

/-- Message content: plain text or multi-part. -/
inductive MsgContent where
  | text : String → MsgContent
  | parts : List OutPart → MsgContent
deriving DecidableEq

/-- A chat message. -/
structure Msg where
  role : String
  content : MsgContent
deriving DecidableEq

/-- `BOX_SCHEMA_HINT_PREFIX` of prompt.js. -/
def BOX_SCHEMA_HINT_HEADER : String :=
  "Return ONLY a valid JSON object (no text commentary or markdown) that exactly matches this schema (field names/types required):"

/-- `CONTEXT_BLOCK_PREFIX` of prompt.js. -/
def CONTEXT_BLOCK_HEADER : String := "Context (JSON):"

/-- `USER_MESSAGE_BLOCK_PREFIX` of prompt.js. -/
def USER_MESSAGE_BLOCK_HEADER : String := "User message:"

/-- `INSTRUCTION_SEPARATOR` of prompt.js. -/
def INSTRUCTION_SEPARATOR : String := "\n\n"

/-- `buildBoxSchemaHint(box)`: empty without a box, otherwise the fixed
instruction followed by the rendered signature. -/
def buildBoxSchemaHint : Option ZNode → String
  | none => ""
  | some b => BOX_SCHEMA_HINT_HEADER ++ " " ++ describeZodSchema b

/-- `buildContextEnvelope(input, serializedContext)`. -/
def buildContextEnvelope (input serializedContext : String) : String :=
  if serializedContext == "" then input
  else
    CONTEXT_BLOCK_HEADER ++ "\n" ++ serializedContext ++ INSTRUCTION_SEPARATOR ++
      USER_MESSAGE_BLOCK_HEADER ++ "\n" ++ input

/-- `buildEffectiveInput(input, serializedContext, box)`. -/
def buildEffectiveInput (input serializedContext : String)
    (box : Option ZNode) : String :=
  let baseInput := buildContextEnvelope input serializedContext
  let boxSchemaHint := buildBoxSchemaHint box
  if boxSchemaHint == "" then baseInput
  else boxSchemaHint ++ INSTRUCTION_SEPARATOR ++ baseInput

/-- `buildOutboundUserContent(effectiveInput, attachments)` of kimten.js. -/
def buildOutboundUserContent (effectiveInput : String)
    (attachments : List Attachment) : MsgContent :=
  if attachments.length > 0 then
    .parts (.textPart effectiveInput :: attachments.map .attachmentPart)
  else .text effectiveInput

/-- `buildMessagesForAgent(memoryMessages, effectiveInput, rawInput)`:
replace the last message's content with the effective input when the
input was enriched and the last message is a user message. -/
def buildMessagesForAgent (memoryMessages : List Msg)
    (effectiveInput rawInput : String) : List Msg :=
  match memoryMessages.getLast? with
  | none => memoryMessages
  | some lastMessage =>
      if effectiveInput != rawInput && lastMessage.role == "user" then
        memoryMessages.dropLast ++ [{ lastMessage with content := .text effectiveInput }]
      else memoryMessages

/-! ## Backend result and memory commit (kimten.js) -/

mutual
/-- A structured backend output value: the result of parsing JSON, so no
BigInt and no undefined can occur in it. -/
inductive JData where
  | dnull : JData
  | dbool : Bool → JData
  | dnum : Int → JData
  | dstr : String → JData
  | darr : JDataArr → JData
  | dobj : JDataObj → JData
/-- Array spine. -/
inductive JDataArr where
  | nil : JDataArr
  | cons : JData → JDataArr → JDataArr
/-- Object spine. -/
inductive JDataObj where
  | nil : JDataObj
  | cons : String → JData → JDataObj → JDataObj
end

mutual
/-- Compact `JSON.stringify` of a structured output value. -/
def stringifyJData : JData → String
  | .dnull => "null"
  | .dbool b => if b then "true" else "false"
  | .dnum n => toString n
  | .dstr s => jsonQuote s
  | .darr es => "[" ++ stringifyJDataArr es ++ "]"
  | .dobj fs => "\x7b" ++ stringifyJDataObj fs ++ "\x7d"
termination_by structural v => v
/-- Comma-joined array elements. -/
def stringifyJDataArr : JDataArr → String
  | .nil => ""
  | .cons v .nil => stringifyJData v
  | .cons v rest => stringifyJData v ++ "," ++ stringifyJDataArr rest
termination_by structural es => es
/-- Comma-joined object entries. -/
def stringifyJDataObj : JDataObj → String
  | .nil => ""
  | .cons k v .nil => jsonQuote k ++ ":" ++ stringifyJData v
  | .cons k v rest =>
      jsonQuote k ++ ":" ++ stringifyJData v ++ "," ++ stringifyJDataObj rest
termination_by structural fs => fs
end

/-- The backend generation result: `text` is `some` exactly when
`typeof result.text === 'string'`; `output` is the structured payload
(`none` models `undefined`). -/
structure GenResult where
  text : Option String
  output : Option JData

/-- `toAssistantMemoryContent(result, box)` of kimten.js. -/
def toAssistantMemoryContent (result : GenResult) (box : Option ZNode) : String :=
  match box with
  | none =>
      match result.text with
      | some t => t
      | none => ""
  | some _ =>
      match result.text with
      | some t =>
          if strTrim t != "" then t
          else stringifyJData (result.output.getD .dnull)
      | none => stringifyJData (result.output.getD .dnull)

/-- An error escaping a `play` call: a context-serialization exception or
a backend rejection. -/
inductive PlayError where
  | contextError : PlayError
  | genError : String → PlayError
deriving DecidableEq

/-- What a successful `play` call returns: `result.output` when a box is
configured, otherwise the assistant text. -/
inductive PlayRet where
  | textRet : String → PlayRet
  | structuredRet : Option JData → PlayRet

/-- Everything `playOnce` computes before awaiting the backend: the
effective input, the (multi-part) outbound user content it passes as the
ignored fourth argument, and the outbound message list. -/
structure ComposedTurn where
  effectiveInput : String
  outboundUserContent : MsgContent
  messages : List Msg

/-- The composition phase of `playOnce` (everything up to and excluding
`agent.generate`): resolve attachments, serialize the context (an
exception there propagates), build the effective input and the outbound
message list from the memory snapshot plus the current user turn.
No memory mutation happens here. -/
def composeTurn (box : Option ZNode) (fs : FileSystem) (mem : List Msg)
    (input : String) (context : Option JVal)
    (attachments : List Attachment) : Except PlayError ComposedTurn :=
  let resolvedAttachments := resolveAttachmentPayloads fs attachments
  match serializeContextImpl context with
  | .error _ => .error .contextError
  | .ok serializedContext =>
      let effectiveInput := buildEffectiveInput input serializedContext box
      let outboundUserContent :=
        buildOutboundUserContent effectiveInput resolvedAttachments
      let fetchedMessages := mem ++ [⟨"user", .text input⟩]
      let messages := buildMessagesForAgent fetchedMessages effectiveInput input
      .ok ⟨effectiveInput, outboundUserContent, messages⟩

/-- The post-state and result of one `playOnce` call. -/
structure PlayOutcome where
  memory : List Msg
  result : Except PlayError PlayRet

/-- `playOnce(input, context, options)` of kimten.js (current iteration):
compose the turn, await `agent.generate` (modelled by `gen`), and only
after a successful generation append the raw user record and the
assistant record; on any failure the memory is left as it was and the
error propagates. -/
def playOnce (box : Option ZNode) (fs : FileSystem)
    (gen : List Msg → Except String GenResult) (mem : List Msg)
    (input : String) (context : Option JVal)
    (attachments : List Attachment) : PlayOutcome :=
  match composeTurn box fs mem input context attachments with
  | .error e => ⟨mem, .error e⟩
  | .ok t =>
      match gen t.messages with
      | .error e => ⟨mem, .error (.genError e)⟩
      | .ok result =>
          let assistantContent := toAssistantMemoryContent result box
          let mem1 := memAdd MEMORY_LIMIT mem ⟨"user", .text input⟩
          let mem2 := memAdd MEMORY_LIMIT mem1 ⟨"assistant", .text assistantContent⟩
          ⟨mem2, .ok (match box with
                      | some _ => .structuredRet result.output
                      | none => .textRet assistantContent)⟩

theorem buildMessagesForAgent_last (mem : List Msg) (eff input : String) :
    (buildMessagesForAgent (mem ++ [⟨"user", .text input⟩]) eff input).getLast? =
      some ⟨"user", .text eff⟩ ∧
    (buildMessagesForAgent (mem ++ [⟨"user", .text input⟩]) eff input).dropLast =
      mem := by
  simp only [buildMessagesForAgent, List.getLast?_concat]
  by_cases he : eff = input
  · subst he
    simp [List.getLast?_concat, List.dropLast_concat]
  · have hb : (eff != input) = true := by
      simp [bne, he]
    simp [hb, List.getLast?_concat, List.dropLast_concat]

/-- **C1.** With the turn composed, a rejection of the awaited
`agent.generate` propagates to the caller and leaves the Memory Store
exactly as it was (no partial commit of the user record), while a
successful generation commits exactly two appends: the raw user text,
then the assistant reply derived from the result. -/
theorem play_failure_no_partial_commit (box : Option ZNode) (fs : FileSystem)
    (gen : List Msg → Except String GenResult) (mem : List Msg)
    (input : String) (context : Option JVal) (attachments : List Attachment)
    (t : ComposedTurn) (e : String) (r : GenResult)
    (hc : composeTurn box fs mem input context attachments = .ok t) :
    (gen t.messages = .error e →
      (playOnce box fs gen mem input context attachments).memory = mem ∧
      (playOnce box fs gen mem input context attachments).result =
        .error (.genError e)) ∧
    (gen t.messages = .ok r →
      (playOnce box fs gen mem input context attachments).memory =
        memAdd MEMORY_LIMIT (memAdd MEMORY_LIMIT mem ⟨"user", .text input⟩)
          ⟨"assistant", .text (toAssistantMemoryContent r box)⟩) := by
  constructor
  · intro hg
    constructor <;> simp [playOnce, hc, hg]
  · intro hg
    simp [playOnce, hc, hg]

/-- **C1 witness.** A failing backend on a fresh instance: the memory
stays empty and the rejection surfaces. -/
theorem play_failure_no_partial_commit_witness :
    composeTurn none (fun _ => none) [] "hi" none [] =
      Except.ok ⟨"hi", .text "hi", [⟨"user", .text "hi"⟩]⟩ ∧
    (fun _ => (Except.error "boom" : Except String GenResult))
        (ComposedTurn.messages ⟨"hi", .text "hi", [⟨"user", .text "hi"⟩]⟩) =
      .error "boom" ∧
    (playOnce none (fun _ => none) (fun _ => .error "boom") [] "hi" none
      []).memory = [] ∧
    (playOnce none (fun _ => none) (fun _ => .error "boom") [] "hi" none
      []).result = .error (.genError "boom") := by
  have hc : composeTurn none (fun _ => none) [] "hi" none [] =
      Except.ok ⟨"hi", .text "hi", [⟨"user", .text "hi"⟩]⟩ := rfl
  have h := (play_failure_no_partial_commit none (fun _ => none)
    (fun _ => .error "boom") [] "hi" none []
    ⟨"hi", .text "hi", [⟨"user", .text "hi"⟩]⟩ "boom"
    ⟨none, none⟩ hc).1 rfl
  exact ⟨hc, rfl, h.1, h.2⟩

/-- **C2.** On a successful turn the record committed for the user is the
raw input string — not the effective input and not a multi-part payload —
while the outbound message list ends with a user message whose content is
the enriched effective input, and the messages before it are exactly the
memory snapshot. -/
theorem play_persists_raw_and_sends_enriched (box : Option ZNode)
    (fs : FileSystem) (gen : List Msg → Except String GenResult)
    (mem : List Msg) (input : String) (context : Option JVal)
    (attachments : List Attachment) (t : ComposedTurn) (r : GenResult)
    (sctx : String)
    (hs : serializeContextImpl context = .ok sctx)
    (hc : composeTurn box fs mem input context attachments = .ok t)
    (hg : gen t.messages = .ok r) :
    (playOnce box fs gen mem input context attachments).memory =
      memAdd MEMORY_LIMIT (memAdd MEMORY_LIMIT mem ⟨"user", .text input⟩)
        ⟨"assistant", .text (toAssistantMemoryContent r box)⟩ ∧
    t.effectiveInput = buildEffectiveInput input sctx box ∧
    t.messages.getLast? =
      some ⟨"user", .text (buildEffectiveInput input sctx box)⟩ ∧
    t.messages.dropLast = mem := by
  unfold composeTurn at hc
  rw [hs] at hc
  simp only [Except.ok.injEq] at hc
  subst hc
  refine ⟨?_, rfl, ?_, ?_⟩
  · simp [playOnce, composeTurn, hs, hg]
  · exact (buildMessagesForAgent_last mem _ input).1
  · exact (buildMessagesForAgent_last mem _ input).2

/-- **C2 witness.** A context-bearing call: the persisted user record
carries the raw `"hi"`, the outbound last message the enriched text. -/
theorem play_persists_raw_and_sends_enriched_witness :
    (serializeContextImpl (some (.jobj (.cons "requestId" (.jstr "1") .nil))) =
        .ok "\x7b\n  \"requestId\": \"1\"\n\x7d" ∧
      composeTurn none (fun _ => none) [] "hi"
          (some (.jobj (.cons "requestId" (.jstr "1") .nil))) [] =
        .ok ⟨buildEffectiveInput "hi" "\x7b\n  \"requestId\": \"1\"\n\x7d" none,
          .text (buildEffectiveInput "hi" "\x7b\n  \"requestId\": \"1\"\n\x7d" none),
          [⟨"user",
            .text (buildEffectiveInput "hi" "\x7b\n  \"requestId\": \"1\"\n\x7d" none)⟩]⟩) ∧
    (playOnce none (fun _ => none) (fun _ => .ok ⟨some "ok", none⟩) [] "hi"
        (some (.jobj (.cons "requestId" (.jstr "1") .nil))) []).memory =
      memAdd MEMORY_LIMIT (memAdd MEMORY_LIMIT [] ⟨"user", .text "hi"⟩)
        ⟨"assistant",
          .text (toAssistantMemoryContent ⟨some "ok", none⟩ none)⟩ := by
  have hs : serializeContextImpl
      (some (.jobj (.cons "requestId" (.jstr "1") .nil))) =
      .ok "\x7b\n  \"requestId\": \"1\"\n\x7d" := rfl
  have hc : composeTurn none (fun _ => none) [] "hi"
      (some (.jobj (.cons "requestId" (.jstr "1") .nil))) [] =
      .ok ⟨buildEffectiveInput "hi" "\x7b\n  \"requestId\": \"1\"\n\x7d" none,
        .text (buildEffectiveInput "hi" "\x7b\n  \"requestId\": \"1\"\n\x7d" none),
        [⟨"user",
          .text (buildEffectiveInput "hi" "\x7b\n  \"requestId\": \"1\"\n\x7d" none)⟩]⟩ := by
    rfl
  have h := play_persists_raw_and_sends_enriched none (fun _ => none)
    (fun _ => .ok ⟨some "ok", none⟩) [] "hi"
    (some (.jobj (.cons "requestId" (.jstr "1") .nil))) []
    _ ⟨some "ok", none⟩ _ hs hc rfl
  exact ⟨⟨hs, hc⟩, h.1⟩

/-- **C10.** On a successful generation, `play` returns `result.output`
when a box is configured (possibly `undefined`) and the assistant text
otherwise; the assistant record stores the backend text when it is a
non-whitespace string, otherwise `JSON.stringify(result.output ?? null)`
(`"null"` when the output is absent); without a box the stored/returned
content is the text, or the empty string when the text is not a string. -/
theorem play_boxed_return_and_stored_content (box : Option ZNode)
    (fs : FileSystem) (gen : List Msg → Except String GenResult)
    (mem : List Msg) (input : String) (context : Option JVal)
    (attachments : List Attachment) (t : ComposedTurn) (r : GenResult)
    (hc : composeTurn box fs mem input context attachments = .ok t)
    (hg : gen t.messages = .ok r) :
    (playOnce box fs gen mem input context attachments).result =
      .ok (match box with
           | some _ => .structuredRet r.output
           | none => .textRet (toAssistantMemoryContent r box)) ∧
    (playOnce box fs gen mem input context attachments).memory =
      memAdd MEMORY_LIMIT (memAdd MEMORY_LIMIT mem ⟨"user", .text input⟩)
        ⟨"assistant", .text (toAssistantMemoryContent r box)⟩ ∧
    (∀ s, r.text = some s → toAssistantMemoryContent r none = s) ∧
    (r.text = none → toAssistantMemoryContent r none = "") ∧
    (∀ b s, r.text = some s → strTrim s ≠ "" →
      toAssistantMemoryContent r (some b) = s) ∧
    (∀ b s, r.text = some s → strTrim s = "" →
      toAssistantMemoryContent r (some b) =
        stringifyJData (r.output.getD .dnull)) ∧
    (∀ b, r.text = none → toAssistantMemoryContent r (some b) =
      stringifyJData (r.output.getD .dnull)) ∧
    (r.output = none → stringifyJData (r.output.getD .dnull) = "null") := by
  refine ⟨?_, ?_, ?_, ?_, ?_, ?_, ?_, ?_⟩
  · cases box <;> simp [playOnce, hc, hg]
  · simp [playOnce, hc, hg]
  · intro s hsme
    simp [toAssistantMemoryContent, hsme]
  · intro hnone
    simp [toAssistantMemoryContent, hnone]
  · intro b s hsme htrim
    have hb : (strTrim s != "") = true := by simp [bne, htrim]
    simp [toAssistantMemoryContent, hsme, hb]
  · intro b s hsme htrim
    have hb : (strTrim s != "") = false := by simp [bne, htrim]
    simp [toAssistantMemoryContent, hsme, hb]
  · intro b hnone
    simp [toAssistantMemoryContent, hnone]
  · intro hnone
    simp [hnone, stringifyJData]

/-- **C10 witness.** An unboxed success with text `"ok"`: the call returns
the text and stores it as the assistant record. -/
theorem play_boxed_return_and_stored_content_witness :
    composeTurn none (fun _ => none) [] "hi" none [] =
      Except.ok ⟨"hi", .text "hi", [⟨"user", .text "hi"⟩]⟩ ∧
    (playOnce none (fun _ => none) (fun _ => .ok ⟨some "ok", none⟩) [] "hi"
        none []).result = .ok (.textRet "ok") ∧
    (playOnce none (fun _ => none) (fun _ => .ok ⟨some "ok", none⟩) [] "hi"
        none []).memory =
      [⟨"user", .text "hi"⟩, ⟨"assistant", .text "ok"⟩] := by
  have hc : composeTurn none (fun _ => none) [] "hi" none [] =
      Except.ok ⟨"hi", .text "hi", [⟨"user", .text "hi"⟩]⟩ := rfl
  have h := play_boxed_return_and_stored_content none (fun _ => none)
    (fun _ => .ok ⟨some "ok", none⟩) [] "hi" none []
    ⟨"hi", .text "hi", [⟨"user", .text "hi"⟩]⟩ ⟨some "ok", none⟩ hc rfl
  refine ⟨hc, ?_, ?_⟩
  · exact h.1
  · rw [h.2.1]
    rfl

/-! ## The superseded play of lib/kimten.js

The snapshot also carries an earlier iteration (lib/kimten.js, signature
`play(input, schema, context)`, no call queue and no per-call options)
whose `play` appends the user record to memory *before* awaiting
`agent.generate`.  The current, queued iteration modelled by `playOnce`
replaced that behaviour; `legacyPlay` records the old one for
comparison: on a backend rejection it leaves the user record committed. -/

/-- `play` of the superseded lib/kimten.js iteration. -/
def legacyPlay (schema : Option ZNode)
    (gen : List Msg → Except String GenResult) (mem : List Msg)
    (input : String) (context : Option JVal) : PlayOutcome :=
  match serializeContextImpl context with
  | .error _ => ⟨mem, .error .contextError⟩
  | .ok sctx =>
      let effectiveInput := buildContextEnvelope input sctx
      let mem1 := memAdd MEMORY_LIMIT mem ⟨"user", .text input⟩
      let messages :=
        match mem1.getLast? with
        | some lastMessage =>
            if sctx != "" && lastMessage.role == "user" then
              mem1.dropLast ++ [{ lastMessage with content := .text effectiveInput }]
            else mem1
        | none => mem1
      match gen messages with
      | .error e => ⟨mem1, .error (.genError e)⟩
      | .ok result =>
          let assistantContent := toAssistantMemoryContent result schema
          ⟨memAdd MEMORY_LIMIT mem1 ⟨"assistant", .text assistantContent⟩,
            .ok (match schema with
                 | some _ => .structuredRet result.output
                 | none => .textRet assistantContent)⟩

/-- In the superseded iteration a backend rejection leaves a partial
commit: the user record is already in memory. -/
theorem legacyPlay_failure_keeps_user_record :
    (legacyPlay none (fun _ => .error "boom") [] "hi" none).memory =
      [⟨"user", .text "hi"⟩] ∧
    (legacyPlay none (fun _ => .error "boom") [] "hi" none).memory ≠ [] := by
  refine ⟨rfl, ?_⟩
  decide

/-! ## Call Sequencer (kimten.js, play / playQueue)

`play` chains every call onto a single per-instance promise:
`const run = playQueue.then(() => playOnce(...)); playQueue = run.catch(() => {}); return run;`
Under the single-threaded event loop this schedules each `playOnce` to
start only after the previous call settles — the `catch` keeps the chain
alive after a rejection while each caller still receives its own call's
result or failure.  The chain is therefore embedded as a sequential fold
over the submitted calls, threading the memory and emitting a
start/settle event pair per call in submission order. -/

/-- One submitted `play` call: its arguments plus the behaviour of the
backend during that turn. -/
structure CallSpec where
  input : String
  context : Option JVal
  attachments : List Attachment
  gen : List Msg → Except String GenResult

/-- Observable scheduling events of the queue. -/
inductive QEvent where
  | started : Nat → QEvent
  | settled : Nat → QEvent
deriving DecidableEq

/-- Run the queued calls in submission order from call index `i`,
threading memory; each call runs to settlement before the next starts,
and runs regardless of whether earlier calls failed. -/
def playChainAux (box : Option ZNode) (fs : FileSystem) (i : Nat)
    (mem : List Msg) :
    List CallSpec → List Msg × List QEvent × List (Except PlayError PlayRet)
  | [] => (mem, [], [])
  | c :: rest =>
      let o := playOnce box fs c.gen mem c.input c.context c.attachments
      let tail := playChainAux box fs (i + 1) o.memory rest
      (tail.1, .started i :: .settled i :: tail.2.1, o.result :: tail.2.2)

/-- The whole queue, from index 0. -/
def playChain (box : Option ZNode) (fs : FileSystem) (mem : List Msg)
    (calls : List CallSpec) :
    List Msg × List QEvent × List (Except PlayError PlayRet) :=
  playChainAux box fs 0 mem calls

/-- **C4.** Two back-to-back `play` calls: the second turn starts only
after the first settles (the event trace is exactly
started/settled 0 then started/settled 1); each caller gets its own
call's result, so a failure of the first call does not keep the second
from running (the second's outcome is `playOnce` on the first's
post-state, whatever the first's result was); and when both generations
succeed the memory appends land in submission order —
first-user, first-assistant, second-user, second-assistant. -/
theorem play_two_calls_serialized (box : Option ZNode) (fs : FileSystem)
    (mem : List Msg) (c1 c2 : CallSpec) (t1 t2 : ComposedTurn)
    (r1 r2 : GenResult) :
    (playChain box fs mem [c1, c2]).2.1 =
      [.started 0, .settled 0, .started 1, .settled 1] ∧
    (playChain box fs mem [c1, c2]).2.2 =
      [(playOnce box fs c1.gen mem c1.input c1.context c1.attachments).result,
       (playOnce box fs c2.gen
          (playOnce box fs c1.gen mem c1.input c1.context c1.attachments).memory
          c2.input c2.context c2.attachments).result] ∧
    (playChain box fs mem [c1, c2]).1 =
      (playOnce box fs c2.gen
        (playOnce box fs c1.gen mem c1.input c1.context c1.attachments).memory
        c2.input c2.context c2.attachments).memory ∧
    (composeTurn box fs mem c1.input c1.context c1.attachments = .ok t1 →
     c1.gen t1.messages = .ok r1 →
     composeTurn box fs
         (memAddAll MEMORY_LIMIT mem
           [⟨"user", .text c1.input⟩,
            ⟨"assistant", .text (toAssistantMemoryContent r1 box)⟩])
         c2.input c2.context c2.attachments = .ok t2 →
     c2.gen t2.messages = .ok r2 →
     (playChain box fs mem [c1, c2]).1 =
       memAddAll MEMORY_LIMIT mem
         [⟨"user", .text c1.input⟩,
          ⟨"assistant", .text (toAssistantMemoryContent r1 box)⟩,
          ⟨"user", .text c2.input⟩,
          ⟨"assistant", .text (toAssistantMemoryContent r2 box)⟩]) := by
  refine ⟨rfl, rfl, rfl, ?_⟩
  intro hc1 hg1 hc2 hg2
  have hm1 : (playOnce box fs c1.gen mem c1.input c1.context
      c1.attachments).memory =
      memAddAll MEMORY_LIMIT mem
        [⟨"user", .text c1.input⟩,
         ⟨"assistant", .text (toAssistantMemoryContent r1 box)⟩] := by
    simp [playOnce, hc1, hg1, memAddAll]
  have hm2 : (playOnce box fs c2.gen
      (memAddAll MEMORY_LIMIT mem
        [⟨"user", .text c1.input⟩,
         ⟨"assistant", .text (toAssistantMemoryContent r1 box)⟩])
      c2.input c2.context c2.attachments).memory =
      memAddAll MEMORY_LIMIT mem
        [⟨"user", .text c1.input⟩,
         ⟨"assistant", .text (toAssistantMemoryContent r1 box)⟩,
         ⟨"user", .text c2.input⟩,
         ⟨"assistant", .text (toAssistantMemoryContent r2 box)⟩] := by
    simp only [memAddAll, List.foldl] at hc2
    simp [playOnce, hc2, hg2, memAddAll]
  show (playOnce box fs c2.gen
      (playOnce box fs c1.gen mem c1.input c1.context c1.attachments).memory
      c2.input c2.context c2.attachments).memory = _
  rw [hm1, hm2]

/-- **C4 witness.** Submitting a failing `"one"` then a succeeding
`"two"`: the trace is serialized, the first caller gets the rejection,
the second runs anyway and commits its two records. -/
theorem play_two_calls_serialized_witness :
    (playChain none (fun _ => none) []
        [⟨"one", none, [], fun _ => .error "boom"⟩,
         ⟨"two", none, [], fun _ => .ok ⟨some "r2", none⟩⟩]).2.1 =
      [.started 0, .settled 0, .started 1, .settled 1] ∧
    (playChain none (fun _ => none) []
        [⟨"one", none, [], fun _ => .error "boom"⟩,
         ⟨"two", none, [], fun _ => .ok ⟨some "r2", none⟩⟩]).2.2 =
      [.error (.genError "boom"), .ok (.textRet "r2")] ∧
    (playChain none (fun _ => none) []
        [⟨"one", none, [], fun _ => .error "boom"⟩,
         ⟨"two", none, [], fun _ => .ok ⟨some "r2", none⟩⟩]).1 =
      [⟨"user", .text "two"⟩, ⟨"assistant", .text "r2"⟩] := by
  have h := play_two_calls_serialized none (fun _ => none) []
    ⟨"one", none, [], fun _ => .error "boom"⟩
    ⟨"two", none, [], fun _ => .ok ⟨some "r2", none⟩⟩
    ⟨"one", .text "one", [⟨"user", .text "one"⟩]⟩
    ⟨"two", .text "two", [⟨"user", .text "two"⟩]⟩
    ⟨some "r2", none⟩ ⟨some "r2", none⟩
  exact ⟨h.1, rfl, rfl⟩
